import Mathlib

/-!
Shallow embedding of the ISBN batch-resolution worker
(`src/unnamed/part_000` of the `nld-isbn` repository) and proofs of the
specification claims.  Effects (network, Cloudflare cache, timers) are
modelled by explicit oracles and by returned effect logs; everything else
is translated function-by-function from the JavaScript source.
-/

namespace NldIsbn

/-! ## JS-style character and string helpers -/

/-- JS whitespace class (`\s`), restricted to the characters that can occur in
this pipeline (ordinary ASCII whitespace and NBSP, which the source maps to a
plain space before any other processing). -/
def jsWs (c : Char) : Bool :=
  c = ' ' || c = '\t' || c = '\n' || c = '\r' || c = '\x0b' || c = '\x0c' || c = '\u00A0'

/-- JS `String.prototype.trim` on a character list. -/
def trimWs (l : List Char) : List Char :=
  ((l.dropWhile jsWs).reverse.dropWhile jsWs).reverse

/-- JS `String.prototype.trim` at the string level. -/
def jsTrimStr (s : String) : String :=
  String.mk (trimWs s.data)

/-- JS `String.prototype.slice(0, n)` (enough for the truncations used here). -/
def takeJs (n : Nat) (s : String) : String :=
  String.mk (s.data.take n)

/-! ## Identifier normalizer (`normalizeIsbn`) -/

/-- Source `normalizeIsbn(v)`: trim, and if non-empty strip every non-digit
character. -/
def normalizeIsbn (v : String) : String :=
  let s := jsTrimStr v
  if s = "" then "" else String.mk (s.data.filter Char.isDigit)

/-- Source `clampInt(v, min, max, def)`.  The hint is a JS number; `none`
stands for a missing or non-finite value (`Number(v)` not finite). -/
def clampInt (v : Option ℚ) (lo hi deflt : Int) : Int :=
  match v with
  | none => deflt
  | some q => max lo (min hi ⌊q⌋)

/-! ## Author normalization (`escapeRegExp` / `isLikelyPersonName` /
`normalizeAuthors`).  The JS regexes are compiled by hand into left-to-right
scanners over character lists; each scanner takes explicit fuel (always called
with the list length, which bounds the number of emitted characters since every
step consumes at least one input character). -/

/-- First alternative of `alts` that is a prefix of `l`, together with the rest
of `l` (JS alternation is ordered: the first matching alternative wins). -/
def matchAlt (alts : List (List Char)) (l : List Char) : Option (List Char × List Char) :=
  match alts with
  | [] => none
  | a :: as => if a.isPrefixOf l then some (a, l.drop a.length) else matchAlt as l

/-- Global replace of `/\(​[^)]*\)/`-style patterns by a single space:
`op … cl` spans (up to the first close) are replaced, an unmatched `op` is kept. -/
def stripDelim (op cl : Char) : Nat → List Char → List Char
  | 0, l => l
  | _ + 1, [] => []
  | fuel + 1, c :: rest =>
    if c = op then
      match (rest.dropWhile (· ≠ cl)) with
      | [] => c :: stripDelim op cl fuel rest
      | _ :: rest' => ' ' :: stripDelim op cl fuel rest'
    else c :: stripDelim op cl fuel rest

/-- One attempted match of `/\s+(and|AND|And)\s+/` at the head of `l`:
returns the remainder after the match, or `none`. -/
def tryAndSep (l : List Char) : Option (List Char) :=
  let ws := l.takeWhile jsWs
  if ws = [] then none
  else
    let after := l.drop ws.length
    match matchAlt [['a','n','d'], ['A','N','D'], ['A','n','d']] after with
    | none => none
    | some (_, rest) =>
      let ws2 := rest.takeWhile jsWs
      if ws2 = [] then none else some (rest.drop ws2.length)

/-- Global replace of `/\s+(and|AND|And)\s+/` by `,`. -/
def stripAndSep : Nat → List Char → List Char
  | 0, l => l
  | _ + 1, [] => []
  | fuel + 1, c :: rest =>
    match tryAndSep (c :: rest) with
    | some rest' => ',' :: stripAndSep fuel rest'
    | none => c :: stripAndSep fuel rest

/-- One attempted match of `/\s*&\s*/` at the head of `l`. -/
def tryAmp (l : List Char) : Option (List Char) :=
  match l.drop (l.takeWhile jsWs).length with
  | '&' :: r => some (r.dropWhile jsWs)
  | _ => none

/-- Global replace of `/\s*&\s*/` by `,`. -/
def stripAmp : Nat → List Char → List Char
  | 0, l => l
  | _ + 1, [] => []
  | fuel + 1, c :: rest =>
    match tryAmp (c :: rest) with
    | some rest' => ',' :: stripAmp fuel rest'
    | none => c :: stripAmp fuel rest

/-- The `roleWords` table, in source order. -/
def roleAlts : List (List Char) :=
  ["지음","씀","저","저자","저술","글","글쓴이","원저","원작","저작",
   "그림","삽화","사진","만화","일러스트","일러스트레이션","그린이",
   "옮김","옮긴이","번역","역","역자","편역",
   "감수","감역","감독",
   "편","편집","편저","엮음","엮은이","편찬",
   "해설","기획","구성","감수자","역해"].map String.data

/-- Global replace of `` `\s*(?:role1|role2|…)\s*` `` by a single space. -/
def stripRoles : Nat → List Char → List Char
  | 0, l => l
  | _ + 1, [] => []
  | fuel + 1, c :: rest =>
    let l := c :: rest
    let ws := l.takeWhile jsWs
    match matchAlt roleAlts (l.drop ws.length) with
    | some (_, rest2) => ' ' :: stripRoles fuel (rest2.dropWhile jsWs)
    | none => c :: stripRoles fuel rest

/-- One attempted match of `/(지은이|저자|글쓴이)\s*:\s*/` at the head of `l`
(trying the alternatives in order, as the regex engine does). -/
def tryColonRole (alts : List (List Char)) (l : List Char) : Option (List Char) :=
  match alts with
  | [] => none
  | a :: as =>
    if a.isPrefixOf l then
      match (l.drop a.length).dropWhile jsWs with
      | ':' :: rest => some (rest.dropWhile jsWs)
      | _ => tryColonRole as l
    else tryColonRole as l

/-- Global replace of `/(지은이|저자|글쓴이)\s*:\s*/` by the empty string. -/
def stripColonRole : Nat → List Char → List Char
  | 0, l => l
  | _ + 1, [] => []
  | fuel + 1, c :: rest =>
    match tryColonRole (["지은이","저자","글쓴이"].map String.data) (c :: rest) with
    | some rest' => stripColonRole fuel rest'
    | none => c :: stripColonRole fuel rest

/-- Global replace of `/\s+/` by a single space. -/
def collapseWs : Nat → List Char → List Char
  | 0, l => l
  | _ + 1, [] => []
  | fuel + 1, c :: rest =>
    if jsWs c then ' ' :: collapseWs fuel (rest.dropWhile jsWs)
    else c :: collapseWs fuel rest

/-- JS `String.prototype.split(",")` (keeps empty pieces, as JS does). -/
def splitComma : List Char → List (List Char)
  | [] => [[]]
  | c :: rest =>
    if c = ',' then [] :: splitComma rest
    else
      match splitComma rest with
      | [] => [[c]]
      | h :: t => (c :: h) :: t

/-- The anchored replace `p.replace(/^(저자|저|지은이|글쓴이|저술자)\s*/g, "")`
(the `^` anchor makes at most one replacement). -/
def stripLeadRole (l : List Char) : List Char :=
  match matchAlt (["저자","저","지은이","글쓴이","저술자"].map String.data) l with
  | some (_, rest) => rest.dropWhile jsWs
  | none => l

/-- The anchored replace `p.replace(/\s*(외|등)$/g, "")`. -/
def stripTailEtc (l : List Char) : List Char :=
  match l.reverse with
  | [] => l
  | c :: rest =>
    if c = '외' || c = '등' then (rest.dropWhile jsWs).reverse else l

/-- Substring containment (`/pat/.test(t)` for a literal alternative). -/
def containsSeq (pat : List Char) : List Char → Bool
  | [] => pat.isEmpty
  | l@(_ :: rest) => pat.isPrefixOf l || containsSeq pat rest

/-- Hangul syllable block (`[가-힣]`). -/
def isHangulSyl (c : Char) : Bool :=
  0xAC00 ≤ c.val.toNat && c.val.toNat ≤ 0xD7A3

/-- ASCII letter (`[A-Za-z]`). -/
def isAsciiAlpha (c : Char) : Bool :=
  ('A' ≤ c && c ≤ 'Z') || ('a' ≤ c && c ≤ 'z')

/-- Source `isLikelyPersonName(s)`. -/
def isLikelyPersonName (s : String) : Bool :=
  if s = "" then false
  else
    let t := trimWs s.data
    if t.length < 2 || 30 < t.length then false
    else if t.any Char.isDigit then false
    else if (["지음","글","그림","옮김","번역","역자","감수","편저","엮음","해설","기획"].map
        String.data).any (fun w => containsSeq w t) then false
    else
      let koreanOk :=
        t ≠ [] &&
        t.all (fun c => isHangulSyl c || jsWs c || c = '·' || c = '.' || c = '・') &&
        (let ns := t.filter (fun c => !jsWs c)
         2 ≤ ns.length && ns.length ≤ 8)
      let englishOk :=
        2 ≤ t.length &&
        (match t.head? with | some c => isAsciiAlpha c | none => false) &&
        (match t.getLast? with | some c => isAsciiAlpha c | none => false) &&
        ((t.drop 1).dropLast.all fun c =>
          isAsciiAlpha c || c = ' ' || c = '.' || c = '\'' || c = '-')
      koreanOk || englishOk

/-- Result record of `normalizeAuthors`. -/
structure AuthorResult where
  authorName : String
  authorShort : String
  count : Nat
deriving DecidableEq, Repr

/-- Steps 3–9 of `normalizeAuthors`: from the trimmed, NBSP-free character list
to the candidate name tokens (before the person-name filter). -/
def authorPipeline (s0 : List Char) : List (List Char) :=
  let s1 := stripDelim '(' ')' s0.length s0
  let s2 := stripDelim '[' ']' s1.length s1
  let s3 := stripDelim '\x7b' '\x7d' s2.length s2
  let s4 := s3.map (fun c => if c = '·' || c = '•' then ',' else c)
  let s5 := s4.map (fun c => if c = ';' || c = '|' || c = '/' then ',' else c)
  let s6 := stripAndSep s5.length s5
  let s7 := stripAmp s6.length s6
  let s8 := stripRoles s7.length s7
  let s9 := stripColonRole s8.length s8
  let s10 := trimWs (collapseWs s9.length s9)
  let parts0 := ((splitComma s10).map trimWs).filter (· ≠ [])
  (parts0.map (fun p => trimWs (stripTailEtc (stripLeadRole p)))).filter (· ≠ [])

/-- Source `normalizeAuthors(authorRaw)`. -/
def normalizeAuthors (authorRaw : String) : AuthorResult :=
  let s0 := trimWs (authorRaw.data.map (fun c => if c = '\u00A0' then ' ' else c))
  if s0 = [] then ⟨"", "", 0⟩
  else
    let people := (authorPipeline s0).filter (fun p => isLikelyPersonName (String.mk p))
    match people with
    | [] => ⟨"", "", 0⟩
    | first :: _ =>
      ⟨String.intercalate ", " (people.map String.mk),
       if 2 ≤ people.length then String.mk first ++ " 외" else String.mk first,
       people.length⟩

/-! ## Row builder (`makeRow`) and year extraction (`extractYear`) -/

/-- The public result row (`makeRow`'s output object).  Field names follow the
source's Korean keys: `title` = 도서명, `authorName` = 저자명, `titleAuthor` =
도서명(저자명), `publisher` = 출판사, `year` = 발행년도, `status` = 조회결과,
`note` = 비고. -/
structure Row where
  isbn : String
  title : String
  authorName : String
  titleAuthor : String
  publisher : String
  year : String
  status : String
  note : String
deriving DecidableEq, Repr

/-- The argument object destructured by `makeRow`.  `status` is optional to
model the `status ?? "미검색"` default (every internal caller passes it;
the remaining `?? ""` defaults of the source are on fields every caller also
passes, so those are taken as plain strings). -/
structure RowFields where
  isbn : String
  title : String
  author : String
  publisher : String
  year : String
  status : Option String
  note : String
deriving DecidableEq, Repr

/-- Source `makeRow({isbn, title, author, publisher, year, status, note})`. -/
def makeRow (f : RowFields) : Row :=
  let normA := normalizeAuthors f.author
  let titleAuthor :=
    if f.title ≠ "" then
      if normA.authorShort ≠ "" then f.title ++ "(" ++ normA.authorShort ++ ")"
      else f.title
    else ""
  { isbn := f.isbn
    title := f.title
    authorName := normA.authorName
    titleAuthor := titleAuthor
    publisher := f.publisher
    year := f.year
    status := f.status.getD "미검색"
    note := f.note }

/-- Matches `/^\d{4}-\d{2}-\d{2}$/`. -/
def isDateDash : List Char → Bool
  | [a, b, c, d, e, f, g, h, i, j] =>
    a.isDigit && b.isDigit && c.isDigit && d.isDigit && e = '-' &&
    f.isDigit && g.isDigit && h = '-' && i.isDigit && j.isDigit
  | _ => false

/-- Source `extractYear(dateLike)`; the argument is an optional upstream field
(`String(dateLike ?? "")`). -/
def extractYear (dateLike : Option String) : String :=
  let s := jsTrimStr (dateLike.getD "")
  if s.data.length = 8 && s.data.all Char.isDigit then String.mk (s.data.take 4)
  else if s.data.length = 4 && s.data.all Char.isDigit then s
  else if isDateDash s.data then String.mk (s.data.take 4)
  else ""

/-! ## Upstream resolver (`fetchWithTimeout` / `fetchWithRetry` /
`fetchFromNldOrCache` / `putCache`).

One network attempt is an oracle value `net timeoutMs attempt`: either the
fetch throws (timeout / connection error) with a message, or it yields an HTTP
response.  `fetchWithRetry` returns the final outcome (`Except` models the JS
throw) together with the list of backoff sleeps it performed. -/

/-- Parsed JSON body of the upstream API (`jsonData`): the `docs` field (absent
or not an array ↦ `none`) and the two possible total-count fields. -/
structure Doc where
  TITLE : Option String
  title : Option String
  AUTHOR : Option String
  author : Option String
  PUBLISHER : Option String
  publisher : Option String
  PUBLISH_PREDATE : Option String
  REAL_PUBLISH_DATE : Option String
  PUBLISH_DATE : Option String
deriving DecidableEq

/-- A document with every field absent (`docs[0] ?? {}`). -/
def emptyDoc : Doc := ⟨none, none, none, none, none, none, none, none, none⟩

structure ApiJson where
  docs : Option (List Doc)
  TOTAL_COUNT : Option String
  totalCount : Option String
deriving DecidableEq

/-- An HTTP response as observed by the source: its status code, the body as
text (`none` if `res.text()` would throw), and the body parsed as the expected
JSON structure (`none` if `res.json()` would throw). -/
structure HttpResp where
  status : Nat
  textBody : Option String
  jsonBody : Option ApiJson
deriving DecidableEq

/-- Property `res.ok` of a fetch response: status in the range 200–299. -/
def HttpResp.okStatus (r : HttpResp) : Bool :=
  200 ≤ r.status && r.status ≤ 299

/-- Outcome of one `fetchWithTimeout` attempt. -/
inductive AttemptResult where
  | fail (msg : String)
  | succeed (r : HttpResp)
deriving DecidableEq

/-- Source `safeText(res)`: the body text, or `""` if reading it throws. -/
def safeText (r : HttpResp) : String :=
  r.textBody.getD ""

/-- The retry loop of `fetchWithRetry`, unrolled on the number of remaining
attempts.  `attempt` is the current attempt index, `lastErr` the last error
seen, and the returned list holds the backoff sleeps (`200 * 2 ^ attempt` ms),
which the source performs after every failed attempt, the last one included. -/
def retryGo (net : Nat → Nat → AttemptResult) (timeoutMs : Nat) :
    Nat → Nat → String → Except String HttpResp × List Nat
  | _, 0, lastErr => (Except.error lastErr, [])
  | attempt, fuel + 1, _ =>
    match net timeoutMs attempt with
    | .succeed r => (Except.ok r, [])
    | .fail e =>
      let rest := retryGo net timeoutMs (attempt + 1) fuel e
      (rest.1, 200 * 2 ^ attempt :: rest.2)

/-- Source `fetchWithRetry(url, options, timeoutMs, retryCount)`: one initial
attempt plus `retryCount` retries. -/
def fetchWithRetry (net : Nat → Nat → AttemptResult) (timeoutMs retryCount : Nat) :
    Except String HttpResp × List Nat :=
  retryGo net timeoutMs 0 (retryCount + 1) ""

/-- The plain outcome objects (`base` / `rowBase`) built inside
`fetchFromNldOrCache`; these are what `putCache` serializes. -/
structure BaseRow where
  isbn : String
  title : String
  author : String
  publisher : String
  year : String
  status : String
  note : String
deriving DecidableEq, Repr

/-- View a stored/base object as `makeRow` input (all fields present). -/
def BaseRow.fields (b : BaseRow) : RowFields :=
  ⟨b.isbn, b.title, b.author, b.publisher, b.year, some b.status, b.note⟩

/-- One `putCache` effect: key, serialized outcome, and the `max-age` of the
`cache-control` header. -/
structure CachePut where
  key : String
  entry : BaseRow
  maxAgeSeconds : Nat
deriving DecidableEq

/-- Default `maxAgeSeconds` of `putCache` (30 days). -/
def defaultMaxAge : Nat := 60 * 60 * 24 * 30

/-- Source `fetchFromNldOrCache(normIsbn, env, ctx)`.  `cache` is the
persistent (Cloudflare) cache keyed by normalized identifier; `net` is the
network oracle.  Returns the row together with the list of cache writes
(`ctx.waitUntil(putCache …)`) the call performs. -/
def fetchFromNldOrCache (cache : String → Option BaseRow)
    (net : Nat → Nat → AttemptResult) (normIsbn : String) : Row × List CachePut :=
  let cacheKey := "https://cache.local/isbn/" ++ normIsbn
  match cache normIsbn with
  | some data => (makeRow data.fields, [])
  | none =>
    match (fetchWithRetry net 3500 2).1 with
    | .error e =>
      (makeRow (BaseRow.fields
        ⟨normIsbn, "", "", "", "", "실패",
         "API fetch 실패(타임아웃/연결): " ++ takeJs 160 e⟩), [])
    | .ok res =>
      if !res.okStatus then
        let text := safeText res
        (makeRow (BaseRow.fields
          ⟨normIsbn, "", "", "", "", "실패",
           "API 응답 오류: HTTP " ++ toString res.status ++
             (if text ≠ "" then " (" ++ takeJs 120 text ++ ")" else "")⟩), [])
      else
        match res.jsonBody with
        | none =>
          (makeRow (BaseRow.fields
            ⟨normIsbn, "", "", "", "", "실패", "API JSON 파싱 실패"⟩), [])
        | some jsonData =>
          let docs := jsonData.docs.getD []
          let total := jsTrimStr ((jsonData.TOTAL_COUNT).getD (jsonData.totalCount.getD ""))
          if docs.length = 0 || total = "0" then
            let base : BaseRow := ⟨normIsbn, "", "", "", "", "미검색", ""⟩
            (makeRow base.fields, [⟨cacheKey, base, defaultMaxAge⟩])
          else
            let d := docs.headD emptyDoc
            let title := jsTrimStr ((d.TITLE).getD (d.title.getD ""))
            let author := jsTrimStr ((d.AUTHOR).getD (d.author.getD ""))
            let publisher := jsTrimStr ((d.PUBLISHER).getD (d.publisher.getD ""))
            let year :=
              if extractYear d.PUBLISH_PREDATE ≠ "" then extractYear d.PUBLISH_PREDATE
              else if extractYear d.REAL_PUBLISH_DATE ≠ "" then extractYear d.REAL_PUBLISH_DATE
              else if extractYear d.PUBLISH_DATE ≠ "" then extractYear d.PUBLISH_DATE
              else ""
            let ok := title ≠ "" || author ≠ "" || publisher ≠ ""
            let base : BaseRow :=
              ⟨normIsbn, title, author, publisher, year,
               if ok then "성공" else "미검색", ""⟩
            (makeRow base.fields, [⟨cacheKey, base, 60 * 60 * 24 * 30⟩])

/-! ## Batch processing (the `tasks` closures, `firstIndexOfNormalized`,
`summary`, and the request handler's slicing/clamping).

Within one batch the in-batch cache maps a normalized identifier to the row of
its first resolution, and the list of resolver calls is logged explicitly.
The tasks' synchronous prefixes (validation, memo check-and-install) run in
index order under the worker pool's shared cursor, so the memo table is
threaded through the rows in input order. -/

/-- Loop body of source `firstIndexOfNormalized(list, normIsbn)`. -/
def firstIdxAux (normIsbn : String) : List String → Nat → Int
  | [], _ => -1
  | x :: xs, i =>
    if normalizeIsbn x = normIsbn then (i : Int) else firstIdxAux normIsbn xs (i + 1)

/-- Source `firstIndexOfNormalized(list, normIsbn)`: index of the first entry
normalizing to `normIsbn`, or `-1`. -/
def firstIndexOfNormalized (list : List String) (normIsbn : String) : Int :=
  firstIdxAux normIsbn list 0

/-- Per-batch mutable state: the in-batch memo (`inBatchCache`) and the log of
`fetchFromNldOrCache` invocations (one entry per upstream-resolver call). -/
structure BatchAcc where
  memo : List (String × Row)
  calls : List String
deriving DecidableEq

/-- The reuse annotation appended to a duplicate row's note. -/
def reuseNote (base : String) : String :=
  if base ≠ "" then base ++ " | 중복: 이전 조회 결과 재사용"
  else "중복: 이전 조회 결과 재사용"

/-- One task closure from `input.map((rawIsbn, idx) => async () => …)`:
validation, memoized resolution, duplicate annotation.  `resolve` stands for
`fetchFromNldOrCache` (it is what the memo table shares). -/
def processTask (input : List String) (resolve : String → Row)
    (rawIsbn : String) (idx : Nat) (acc : BatchAcc) : Row × BatchAcc :=
  let norm := normalizeIsbn rawIsbn
  if norm = "" then
    (makeRow ⟨rawIsbn, "", "", "", "", some "형식오류", "빈 값 또는 ISBN 형식이 아님"⟩, acc)
  else if ¬(norm.data.length = 10 ∨ norm.data.length = 13) ∨ ¬(norm.data.all Char.isDigit = true) then
    (makeRow ⟨norm, "", "", "", "", some "형식오류", "ISBN은 숫자 10자리 또는 13자리여야 함"⟩, acc)
  else
    let (baseRow, acc') :=
      match acc.memo.lookup norm with
      | some r => (r, acc)
      | none =>
        let r := resolve norm
        (r, ⟨acc.memo ++ [(norm, r)], acc.calls ++ [norm]⟩)
    let isDuplicate := firstIndexOfNormalized input norm ≠ (idx : Int)
    if isDuplicate then
      ({ baseRow with isbn := norm, note := reuseNote baseRow.note }, acc')
    else
      ({ baseRow with isbn := norm }, acc')

/-- Index the input positions (the `idx` of the `map` callback). -/
def withIdx : Nat → List String → List (Nat × String)
  | _, [] => []
  | n, x :: xs => (n, x) :: withIdx (n + 1) xs

/-- Run the task list in input order, threading the batch state. -/
def processBatchGo (input : List String) (resolve : String → Row) :
    List (Nat × String) → BatchAcc → List Row × BatchAcc
  | [], acc => ([], acc)
  | (idx, raw) :: rest, acc =>
    let (row, acc') := processTask input resolve raw idx acc
    let (rows, accF) := processBatchGo input resolve rest acc'
    (row :: rows, accF)

/-- The whole batch: one output row per input position, plus the final batch
state (memo table and resolver-call log). -/
def processBatch (input : List String) (resolve : String → Row) :
    List Row × BatchAcc :=
  processBatchGo input resolve (withIdx 0 input) ⟨[], []⟩

/-- The `summary` object computed from `results`. -/
structure Summary where
  total : Nat
  success : Nat
  notFound : Nat
  failed : Nat
  invalid : Nat
deriving DecidableEq, Repr

/-- Source `summary` computation. -/
def summarize (results : List Row) : Summary :=
  { total := results.length
    success := (results.filter (fun r => r.status = "성공")).length
    notFound := (results.filter (fun r => r.status = "미검색")).length
    failed := (results.filter (fun r => r.status = "실패")).length
    invalid := (results.filter (fun r => r.status = "형식오류")).length }

/-- Result of the batch part of the request handler. -/
structure BatchOut where
  rows : List Row
  summary : Summary
  concurrency : Int
deriving DecidableEq

/-- The batch-resolution part of the `fetch` handler: slice the input to 500,
clamp the concurrency hint to `[1, 10]` with default `6`, run the batch,
tally the summary. -/
def handleBatch (isbns : List String) (hint : Option ℚ) (resolve : String → Row) :
    BatchOut :=
  let input := isbns.take 500
  let concurrency := clampInt hint 1 10 6
  let results := (processBatch input resolve).1
  { rows := results, summary := summarize results, concurrency := concurrency }

/-! ## Concurrency-limited scheduler (`runPool`).

`runPool(taskFns, limit)` creates `min(limit, N)` workers, each repeatedly
claiming the next index from the shared cursor `i` and writing its task's
result into `results[idx]`.  The model is a small-step machine: a worker is
idle (about to claim), running a claimed index (its task's await is pending),
or finished.  A schedule — an arbitrary list of worker indices — chooses which
worker steps next, which covers every completion order of the tasks. -/

inductive WStatus where
  | idle : WStatus
  | running : Nat → WStatus
  | done : WStatus
deriving DecidableEq

structure PoolState (α : Type) where
  nextIdx : Nat
  results : List (Option α)
  workers : List WStatus
deriving DecidableEq

/-- One scheduler step by worker `w`: an idle worker atomically claims the
cursor (`const idx = i++`) and either starts `taskFns[idx]` or, when the tasks
are exhausted, breaks out of its loop; a running worker completes its task and
writes `results[idx]`.  A finished or nonexistent worker does nothing. -/
def poolStep (task : Nat → α) (s : PoolState α) (w : Nat) : PoolState α :=
  match s.workers.get? w with
  | none => s
  | some .done => s
  | some .idle =>
    if s.nextIdx < s.results.length then
      { s with nextIdx := s.nextIdx + 1,
               workers := s.workers.set w (.running s.nextIdx) }
    else
      { s with workers := s.workers.set w .done }
  | some (.running j) =>
    { s with results := s.results.set j (some (task j)),
             workers := s.workers.set w .idle }

/-- Run the pool under a schedule. -/
def runSched (task : Nat → α) (s : PoolState α) (sched : List Nat) : PoolState α :=
  sched.foldl (poolStep task) s

/-- Initial pool state for `runPool(taskFns, limit)` with `n` tasks:
`new Array(n)` results, `Math.min(limit, n)` workers. -/
def initPool (α : Type) (n limit : Nat) : PoolState α :=
  ⟨0, List.replicate n none, List.replicate (min limit n) .idle⟩

/-- `Promise.all(workers)` has settled: every worker broke out of its loop. -/
def allDone (s : PoolState α) : Bool :=
  s.workers.all fun st => match st with | .done => true | _ => false

/-! ## Helper lemmas -/

/-- The candidate tokens of `normalizeAuthors` that survive the
person-name filter. -/
def authorPeople (raw : String) : List (List Char) :=
  (authorPipeline (trimWs (raw.data.map (fun c => if c = '\u00A0' then ' ' else c)))).filter
    (fun p => isLikelyPersonName (String.mk p))

lemma authorPipeline_nil : authorPipeline [] = [] := rfl

lemma processBatchGo_length (input : List String) (resolve : String → Row) :
    ∀ (pairs : List (Nat × String)) (acc : BatchAcc),
      (processBatchGo input resolve pairs acc).1.length = pairs.length := by
  intro pairs
  induction pairs with
  | nil => intro acc; rfl
  | cons p rest ih =>
    intro acc
    obtain ⟨idx, raw⟩ := p
    simp only [processBatchGo, List.length_cons]
    rw [ih]

lemma withIdx_length : ∀ (n : Nat) (l : List String), (withIdx n l).length = l.length := by
  intro n l
  induction l generalizing n with
  | nil => rfl
  | cons x xs ih => simp [withIdx, ih]

lemma processBatch_length (input : List String) (resolve : String → Row) :
    (processBatch input resolve).1.length = input.length := by
  unfold processBatch
  rw [processBatchGo_length, withIdx_length]

/-! ## Claim theorems -/

/-- **C7.** The composite title/author label of the Row Builder equals
`title(shortAuthorForm)` when both the title and the normalized author
short-form are non-empty, the title alone when the title is non-empty but no
author short-form is resolvable, and the empty string when the title is empty. -/
theorem claim7_make_row_label (f : RowFields) :
    (f.title ≠ "" → (normalizeAuthors f.author).authorShort ≠ "" →
      (makeRow f).titleAuthor =
        f.title ++ "(" ++ (normalizeAuthors f.author).authorShort ++ ")") ∧
    (f.title ≠ "" → (normalizeAuthors f.author).authorShort = "" →
      (makeRow f).titleAuthor = f.title) ∧
    (f.title = "" → (makeRow f).titleAuthor = "") := by
  refine ⟨fun h1 h2 => ?_, fun h1 h2 => ?_, fun h1 => ?_⟩
  · simp [makeRow, h1, h2]
  · simp [makeRow, h1, h2]
  · simp [makeRow, h1]

/-- Witness for C7 at concrete inputs exercising all three branches. -/
theorem claim7_witness :
    ((makeRow ⟨"i", "Book", "김철수", "p", "y", some "성공", ""⟩).titleAuthor =
        "Book" ++ "(" ++ (normalizeAuthors "김철수").authorShort ++ ")") ∧
    ((makeRow ⟨"i", "Book", "", "p", "y", some "성공", ""⟩).titleAuthor = "Book") ∧
    ((makeRow ⟨"i", "", "김철수", "p", "y", some "성공", ""⟩).titleAuthor = "") :=
  ⟨(claim7_make_row_label ⟨"i", "Book", "김철수", "p", "y", some "성공", ""⟩).1
      (by decide) (by decide),
   (claim7_make_row_label ⟨"i", "Book", "", "p", "y", some "성공", ""⟩).2.1
      (by decide) (by decide),
   (claim7_make_row_label ⟨"i", "", "김철수", "p", "y", some "성공", ""⟩).2.2 rfl⟩

/-- **C8.** The Author Normalizer returns the empty result when no token
survives the plausible-person-name filter; otherwise `name` is the surviving
tokens joined by `", "`, `short` is the first token (with the `" 외"` marker
appended when two or more tokens survive), and `count` is the number of
surviving tokens. -/
theorem claim8_author_normalizer (raw : String) :
    (authorPeople raw = [] → normalizeAuthors raw = ⟨"", "", 0⟩) ∧
    (∀ first rest, authorPeople raw = first :: rest →
      normalizeAuthors raw =
        ⟨String.intercalate ", " ((authorPeople raw).map String.mk),
         if 2 ≤ (authorPeople raw).length then String.mk first ++ " 외"
         else String.mk first,
         (authorPeople raw).length⟩) := by
  unfold normalizeAuthors authorPeople
  by_cases h : trimWs (raw.data.map (fun c => if c = '\u00A0' then ' ' else c)) = []
  · rw [h]
    rw [authorPipeline_nil]
    simp
  · rw [if_neg h]
    constructor
    · intro hp
      rw [hp]
    · intro first rest hp
      rw [hp]

/-- Witness for C8: a two-name input and a no-name input. -/
theorem claim8_witness :
    (normalizeAuthors "김철수, 이영희" =
      ⟨String.intercalate ", " ((authorPeople "김철수, 이영희").map String.mk),
       if 2 ≤ (authorPeople "김철수, 이영희").length then
         String.mk (['김', '철', '수']) ++ " 외"
       else String.mk (['김', '철', '수']),
       (authorPeople "김철수, 이영희").length⟩) ∧
    normalizeAuthors "123" = ⟨"", "", 0⟩ :=
  ⟨(claim8_author_normalizer "김철수, 이영희").2 ['김', '철', '수'] [['이', '영', '희']]
      (by decide),
   (claim8_author_normalizer "123").1 (by decide)⟩

/-- **C9.** At most the first 500 identifiers are processed (the output has
`min (length) 500` rows and positions beyond 500 are irrelevant), and the
effective concurrency is the hint clamped to `[1, 10]`, defaulting to `6`
when the hint is missing or not a finite number. -/
theorem claim9_slice_and_clamp (isbns : List String) (hint : Option ℚ)
    (resolve : String → Row) :
    (handleBatch isbns hint resolve).rows.length = min isbns.length 500 ∧
    handleBatch isbns hint resolve = handleBatch (isbns.take 500) hint resolve ∧
    1 ≤ (handleBatch isbns hint resolve).concurrency ∧
    (handleBatch isbns hint resolve).concurrency ≤ 10 ∧
    (hint = none → (handleBatch isbns hint resolve).concurrency = 6) := by
  refine ⟨?_, ?_, ?_, ?_, ?_⟩
  · simp [handleBatch, processBatch_length, List.length_take, Nat.min_comm]
  · simp [handleBatch, List.take_take]
  · cases hint with
    | none => simp [handleBatch, clampInt]
    | some q =>
      simp only [handleBatch, clampInt]
      exact le_max_left 1 _
  · cases hint with
    | none => simp [handleBatch, clampInt]
    | some q =>
      simp only [handleBatch, clampInt]
      exact max_le (by norm_num) (min_le_left 10 _)
  · intro h
    rw [h]
    rfl

/-- Witness for C9 at a concrete request. -/
theorem claim9_witness :
    (handleBatch ["a"] none (fun _ => makeRow ⟨"", "", "", "", "", none, ""⟩)).concurrency
      = 6 :=
  (claim9_slice_and_clamp ["a"] none _).2.2.2.2 rfl

lemma retryGo_succ (net : Nat → Nat → AttemptResult) (t a fuel : Nat) (e : String) :
    retryGo net t a (fuel + 1) e =
      match net t a with
      | .succeed r => (Except.ok r, [])
      | .fail e' =>
        let rest := retryGo net t (a + 1) fuel e'
        (rest.1, 200 * 2 ^ a :: rest.2) := rfl

/-- **C3.** At the resolver's call site the per-attempt timeout is 3500 ms and
at most 3 attempts are made (the outcome only depends on `net 3500 0..2`);
backoff sleeps are 200, 400, (800) ms, doubling per attempt; two failures
followed by a success yield the success response; three failures yield the
thrown last error, and `fetchFromNldOrCache` then produces a `실패` row whose
note carries the error message truncated to 160 characters. -/
theorem claim3_retry_timeout (net net' : Nat → Nat → AttemptResult)
    (cache : String → Option BaseRow) (isbn : String)
    (e0 e1 e2 : String) (r : HttpResp) :
    ((∀ i, i < 3 → net 3500 i = net' 3500 i) →
      fetchWithRetry net 3500 2 = fetchWithRetry net' 3500 2) ∧
    (net 3500 0 = .fail e0 → net 3500 1 = .fail e1 → net 3500 2 = .succeed r →
      fetchWithRetry net 3500 2 = (Except.ok r, [200, 400])) ∧
    (net 3500 0 = .fail e0 → net 3500 1 = .fail e1 → net 3500 2 = .fail e2 →
      fetchWithRetry net 3500 2 = (Except.error e2, [200, 400, 800]) ∧
      (cache isbn = none →
        (fetchFromNldOrCache cache net isbn).1.status = "실패" ∧
        (fetchFromNldOrCache cache net isbn).1.note =
          "API fetch 실패(타임아웃/연결): " ++ takeJs 160 e2)) := by
  have unroll : ∀ (m : Nat → Nat → AttemptResult),
      fetchWithRetry m 3500 2 =
        match m 3500 0 with
        | .succeed r0 => (Except.ok r0, [])
        | .fail f0 =>
          match m 3500 1 with
          | .succeed r1 => (Except.ok r1, [200])
          | .fail f1 =>
            match m 3500 2 with
            | .succeed r2 => (Except.ok r2, [200, 400])
            | .fail f2 => (Except.error f2, [200, 400, 800]) := by
    intro m
    show retryGo m 3500 0 (2 + 1) "" = _
    rw [retryGo_succ]
    cases h0 : m 3500 0 with
    | succeed r0 => rfl
    | fail f0 =>
      show (let rest := retryGo m 3500 1 (1 + 1) f0
            (rest.1, 200 * 2 ^ 0 :: rest.2)) = _
      rw [retryGo_succ]
      cases h1 : m 3500 1 with
      | succeed r1 => rfl
      | fail f1 =>
        show (let rest := (let rest := retryGo m 3500 2 (0 + 1) f1
                           (rest.1, 200 * 2 ^ 1 :: rest.2))
              (rest.1, 200 * 2 ^ 0 :: rest.2)) = _
        rw [retryGo_succ]
        cases h2 : m 3500 2 with
        | succeed r2 => rfl
        | fail f2 => rfl
  refine ⟨fun hagree => ?_, fun h0 h1 h2 => ?_, fun h0 h1 h2 => ?_⟩
  · rw [unroll net, unroll net',
      hagree 0 (by omega), hagree 1 (by omega), hagree 2 (by omega)]
  · rw [unroll net, h0, h1, h2]
  · have hres : fetchWithRetry net 3500 2 = (Except.error e2, [200, 400, 800]) := by
      rw [unroll net, h0, h1, h2]
    refine ⟨hres, fun hcache => ?_⟩
    have h1' : (fetchWithRetry net 3500 2).1 = Except.error e2 := by rw [hres]
    unfold fetchFromNldOrCache
    rw [hcache, h1']
    exact ⟨rfl, rfl⟩

/-- Witness for C3: an always-failing network and a fail-fail-succeed network. -/
theorem claim3_witness :
    fetchWithRetry (fun _ _ => .fail "boom") 3500 2 =
      (Except.error "boom", [200, 400, 800]) ∧
    (fetchFromNldOrCache (fun _ => none) (fun _ _ => .fail "boom") "9788901234567").1.note
      = "API fetch 실패(타임아웃/연결): " ++ takeJs 160 "boom" ∧
    fetchWithRetry
        (fun _ a => if a = 2 then .succeed ⟨200, some "", none⟩ else .fail "boom") 3500 2 =
      (Except.ok ⟨200, some "", none⟩, [200, 400]) :=
  ⟨((claim3_retry_timeout (fun _ _ => .fail "boom") (fun _ _ => .fail "boom")
      (fun _ => none) "9788901234567" "boom" "boom" "boom" ⟨200, some "", none⟩).2.2
      rfl rfl rfl).1,
   (((claim3_retry_timeout (fun _ _ => .fail "boom") (fun _ _ => .fail "boom")
      (fun _ => none) "9788901234567" "boom" "boom" "boom" ⟨200, some "", none⟩).2.2
      rfl rfl rfl).2 rfl).2,
   (claim3_retry_timeout
      (fun _ a => if a = 2 then .succeed ⟨200, some "", none⟩ else .fail "boom")
      (fun _ _ => .fail "x") (fun _ => none) "i" "boom" "boom" "x"
      ⟨200, some "", none⟩).2.1 rfl rfl rfl⟩

/-- **C5.** Every persistent-cache write carries an outcome whose status is
`성공` (success) or `미검색` (not-found) with the 30-day max-age; a resolution
whose row is `실패` (failed) performs no cache write at all (so a later
resolution of the same identifier goes back to the network). -/
theorem claim5_cache_worthiness (cache : String → Option BaseRow)
    (net : Nat → Nat → AttemptResult) (isbn : String) :
    (∀ p ∈ (fetchFromNldOrCache cache net isbn).2,
      (p.entry.status = "성공" ∨ p.entry.status = "미검색") ∧
        p.maxAgeSeconds = 2592000) ∧
    ((fetchFromNldOrCache cache net isbn).1.status = "실패" →
      (fetchFromNldOrCache cache net isbn).2 = []) := by
  unfold fetchFromNldOrCache
  dsimp only
  constructor
  · intro p hp
    revert hp
    split
    · simp
    · split
      · simp
      · split
        · simp
        · split
          · simp
          · split
            · intro hp
              simp only [List.mem_singleton] at hp
              subst hp
              refine ⟨Or.inr rfl, by norm_num [defaultMaxAge]⟩
            · intro hp
              simp only [List.mem_singleton] at hp
              subst hp
              refine ⟨?_, by norm_num⟩
              dsimp only
              exact ite_eq_or_eq _ _ _
  · split
    · intro _; rfl
    · split
      · intro _; rfl
      · split
        · intro _; rfl
        · split
          · intro _; rfl
          · split
            · intro h
              simp [makeRow, BaseRow.fields] at h
            · intro h
              simp only [makeRow, BaseRow.fields, Option.getD_some] at h
              split at h
              · exact absurd h (by decide)
              · exact absurd h (by decide)

/-- Witness for C5 at a concrete failing network and at a populated document. -/
theorem claim5_witness :
    (fetchFromNldOrCache (fun _ => none) (fun _ _ => .fail "down") "9788901234567").2
      = [] ∧
    ∀ p ∈ (fetchFromNldOrCache (fun _ => none)
        (fun _ _ => .succeed ⟨200, some "", some ⟨some [], some "0", none⟩⟩)
        "9788901234567").2,
      (p.entry.status = "성공" ∨ p.entry.status = "미검색") ∧
        p.maxAgeSeconds = 2592000 :=
  ⟨(claim5_cache_worthiness (fun _ => none) (fun _ _ => .fail "down")
      "9788901234567").2 (by decide),
   (claim5_cache_worthiness (fun _ => none)
      (fun _ _ => .succeed ⟨200, some "", some ⟨some [], some "0", none⟩⟩)
      "9788901234567").1⟩

/-- **C6.** The Upstream Resolver is total: a cache hit returns the stored
outcome as a row; on a cache miss every network behaviour (retry exhaustion,
non-OK HTTP status, unparseable body, empty or populated document list)
resolves locally to a row classified `실패`, `미검색` or `성공` — no raised
error reaches the caller — and the batch always produces one row per input
position, so no row's failure aborts sibling rows. -/
theorem claim6_resolver_total (cache : String → Option BaseRow)
    (net : Nat → Nat → AttemptResult) (isbn : String) :
    (∀ b, cache isbn = some b →
      (fetchFromNldOrCache cache net isbn).1 = makeRow b.fields) ∧
    (cache isbn = none →
      (fetchFromNldOrCache cache net isbn).1.status = "실패" ∨
      (fetchFromNldOrCache cache net isbn).1.status = "미검색" ∨
      (fetchFromNldOrCache cache net isbn).1.status = "성공") ∧
    (∀ (input : List String) (resolve : String → Row),
      (processBatch input resolve).1.length = input.length) := by
  refine ⟨fun b hb => ?_, fun hnone => ?_, fun input resolve => processBatch_length _ _⟩
  · unfold fetchFromNldOrCache
    rw [hb]
  · unfold fetchFromNldOrCache
    rw [hnone]
    dsimp only
    split
    · exact Or.inl rfl
    · split
      · exact Or.inl rfl
      · split
        · exact Or.inl rfl
        · split
          · exact Or.inr (Or.inl rfl)
          · simp only [makeRow, BaseRow.fields, Option.getD_some]
            split
            · exact Or.inr (Or.inr rfl)
            · exact Or.inr (Or.inl rfl)

/-- Witness for C6: a cache hit, an unparseable body, and a batch length. -/
theorem claim6_witness :
    (fetchFromNldOrCache
        (fun _ => some ⟨"9788901234567", "T", "A", "P", "2020", "성공", ""⟩)
        (fun _ _ => .fail "x") "9788901234567").1 =
      makeRow (BaseRow.fields ⟨"9788901234567", "T", "A", "P", "2020", "성공", ""⟩) ∧
    ((fetchFromNldOrCache (fun _ => none)
        (fun _ _ => .succeed ⟨200, some "junk", none⟩) "9788901234567").1.status = "실패" ∨
     (fetchFromNldOrCache (fun _ => none)
        (fun _ _ => .succeed ⟨200, some "junk", none⟩) "9788901234567").1.status = "미검색" ∨
     (fetchFromNldOrCache (fun _ => none)
        (fun _ _ => .succeed ⟨200, some "junk", none⟩) "9788901234567").1.status = "성공") ∧
    (processBatch ["a", "b"] (fun _ => makeRow ⟨"", "", "", "", "", none, ""⟩)).1.length = 2 :=
  ⟨(claim6_resolver_total
      (fun _ => some ⟨"9788901234567", "T", "A", "P", "2020", "성공", ""⟩)
      (fun _ _ => .fail "x") "9788901234567").1 _ rfl,
   (claim6_resolver_total (fun _ => none)
      (fun _ _ => .succeed ⟨200, some "junk", none⟩) "9788901234567").2.1 rfl,
   (claim6_resolver_total (fun _ => none) (fun _ _ => .fail "x") "x").2.2
      ["a", "b"] (fun _ => makeRow ⟨"", "", "", "", "", none, ""⟩)⟩

/-! ## Batch invariants: the memo table holds first-resolution results and the
call log never repeats an identifier. -/

/-- Order-free characterization of one task's output row (the memoized base row
is always `resolve norm`, whichever occurrence installed it). -/
def expectedRow (input : List String) (resolve : String → Row)
    (rawIsbn : String) (idx : Nat) : Row :=
  let norm := normalizeIsbn rawIsbn
  if norm = "" then
    makeRow ⟨rawIsbn, "", "", "", "", some "형식오류", "빈 값 또는 ISBN 형식이 아님"⟩
  else if ¬(norm.data.length = 10 ∨ norm.data.length = 13) ∨
      ¬(norm.data.all Char.isDigit = true) then
    makeRow ⟨norm, "", "", "", "", some "형식오류", "ISBN은 숫자 10자리 또는 13자리여야 함"⟩
  else if firstIndexOfNormalized input norm ≠ (idx : Int) then
    { resolve norm with isbn := norm, note := reuseNote (resolve norm).note }
  else
    { resolve norm with isbn := norm }

/-- Invariant of the per-batch state: memo entries are first-resolution
results, the call log has no duplicates, and an identifier was logged exactly
when it is memoized. -/
def memoOk (resolve : String → Row) (acc : BatchAcc) : Prop :=
  (∀ k r, (k, r) ∈ acc.memo → r = resolve k) ∧
  acc.calls.Nodup ∧
  (∀ k, k ∈ acc.calls ↔ ∃ r, (k, r) ∈ acc.memo)

lemma lookup_mem {l : List (String × Row)} {k : String} {r : Row}
    (h : l.lookup k = some r) : (k, r) ∈ l := by
  induction l with
  | nil => simp [List.lookup] at h
  | cons p t ih =>
    obtain ⟨k', r'⟩ := p
    by_cases hk : k = k'
    · subst hk
      simp [List.lookup] at h
      simp [h]
    · have hkb : (k == k') = false := by simp [hk]
      simp only [List.lookup, hkb] at h
      exact List.mem_cons_of_mem _ (ih h)

lemma lookup_none {l : List (String × Row)} {k : String}
    (h : l.lookup k = none) : ∀ r, (k, r) ∉ l := by
  induction l with
  | nil => simp
  | cons p t ih =>
    obtain ⟨k', r'⟩ := p
    by_cases hk : k = k'
    · subst hk
      simp [List.lookup] at h
    · have hkb : (k == k') = false := by simp [hk]
      simp only [List.lookup, hkb] at h
      intro r hr
      rcases List.mem_cons.mp hr with heq | hmem
      · exact hk (congrArg Prod.fst heq)
      · exact ih h r hmem

/-- One task step: the produced row is the order-free expected row, and the
invariant is preserved. -/
lemma processTask_spec (input : List String) (resolve : String → Row)
    (rawIsbn : String) (idx : Nat) (acc : BatchAcc) (hacc : memoOk resolve acc) :
    (processTask input resolve rawIsbn idx acc).1 = expectedRow input resolve rawIsbn idx ∧
    memoOk resolve (processTask input resolve rawIsbn idx acc).2 := by
  unfold processTask expectedRow
  dsimp only
  split
  · exact ⟨rfl, hacc⟩
  · split
    · exact ⟨rfl, hacc⟩
    · -- valid identifier: memo lookup or install
      rcases hl : acc.memo.lookup (normalizeIsbn rawIsbn) with _ | r
      · -- miss: install and log
        simp only [hl]
        have hnotmem : normalizeIsbn rawIsbn ∉ acc.calls := by
          intro hmem
          obtain ⟨r, hr⟩ := (hacc.2.2 _).mp hmem
          exact lookup_none hl r hr
        have hacc' : memoOk resolve
            ⟨acc.memo ++ [(normalizeIsbn rawIsbn, resolve (normalizeIsbn rawIsbn))],
             acc.calls ++ [normalizeIsbn rawIsbn]⟩ := by
          refine ⟨?_, ?_, ?_⟩
          · intro k r hkr
            rcases List.mem_append.mp hkr with hmem | hnew
            · exact hacc.1 k r hmem
            · simp only [List.mem_singleton, Prod.mk.injEq] at hnew
              rw [hnew.2, hnew.1]
          · rw [List.nodup_append]
            exact ⟨hacc.2.1, List.nodup_singleton _,
              fun a ha hmem => hnotmem (by rwa [List.mem_singleton.mp hmem] at ha)⟩
          · intro k
            rw [List.mem_append, List.mem_singleton, hacc.2.2 k]
            constructor
            · rintro (⟨r, hr⟩ | rfl)
              · exact ⟨r, List.mem_append_left _ hr⟩
              · exact ⟨_, List.mem_append_right _ (List.mem_singleton.mpr rfl)⟩
            · rintro ⟨r, hr⟩
              rcases List.mem_append.mp hr with hmem | hnew
              · exact Or.inl ⟨r, hmem⟩
              · simp only [List.mem_singleton, Prod.mk.injEq] at hnew
                exact Or.inr hnew.1
        constructor
        · split <;> rfl
        · split <;> exact hacc'
      · -- hit: reuse the memoized row, which is the first resolution
        have hr : r = resolve (normalizeIsbn rawIsbn) := hacc.1 _ _ (lookup_mem hl)
        simp only [hl, hr]
        constructor
        · split <;> rfl
        · split <;> exact hacc

lemma processBatchGo_spec (input : List String) (resolve : String → Row) :
    ∀ (pairs : List (Nat × String)) (acc : BatchAcc), memoOk resolve acc →
      (processBatchGo input resolve pairs acc).1 =
        pairs.map (fun p => expectedRow input resolve p.2 p.1) ∧
      memoOk resolve (processBatchGo input resolve pairs acc).2 := by
  intro pairs
  induction pairs with
  | nil => intro acc hacc; exact ⟨rfl, hacc⟩
  | cons p rest ih =>
    intro acc hacc
    obtain ⟨idx, raw⟩ := p
    obtain ⟨hrow, hacc'⟩ := processTask_spec input resolve raw idx acc hacc
    obtain ⟨hrest, haccF⟩ := ih _ hacc'
    simp only [processBatchGo, List.map_cons]
    exact ⟨by rw [hrow, hrest], haccF⟩

lemma memoOk_init (resolve : String → Row) : memoOk resolve ⟨[], []⟩ := by
  refine ⟨?_, ?_, ?_⟩
  · intro k r h
    exact absurd h (List.not_mem_nil _)
  · exact List.nodup_nil
  · intro k
    simp

lemma withIdx_get? : ∀ (l : List String) (n i : Nat),
    (withIdx n l).get? i = (l.get? i).map (fun x => (n + i, x)) := by
  intro l
  induction l with
  | nil => intro n i; simp [withIdx]
  | cons x xs ih =>
    intro n i
    cases i with
    | zero => simp [withIdx]
    | succ i' =>
      simp only [withIdx, List.get?_cons_succ, ih (n + 1) i']
      cases xs.get? i' <;> simp <;> omega

/-- Each output row of the batch is the expected row of its input position. -/
lemma processBatch_get (input : List String) (resolve : String → Row) (i : Nat) :
    (processBatch input resolve).1.get? i =
      (input.get? i).map (fun raw => expectedRow input resolve raw i) := by
  unfold processBatch
  rw [(processBatchGo_spec input resolve (withIdx 0 input) ⟨[], []⟩
        (memoOk_init resolve)).1]
  rw [List.get?_map, withIdx_get? input 0 i]
  cases input.get? i <;> simp

lemma processBatch_calls_nodup (input : List String) (resolve : String → Row) :
    (processBatch input resolve).2.calls.Nodup :=
  (processBatchGo_spec input resolve (withIdx 0 input) ⟨[], []⟩
    (memoOk_init resolve)).2.2.1

lemma normalizeIsbn_all_digits (v : String) :
    (normalizeIsbn v).data.all Char.isDigit = true := by
  unfold normalizeIsbn
  dsimp only
  split
  · rfl
  · simp only [List.all_eq_true]
    intro c hc
    exact (List.mem_filter.mp hc).2

lemma firstIdxAux_spec (norm : String) :
    ∀ (l : List String) (i n : Nat),
      (l.get? i).map normalizeIsbn = some norm →
      (∀ k, k < i → (l.get? k).map normalizeIsbn ≠ some norm) →
      firstIdxAux norm l n = ((n + i : Nat) : Int) := by
  intro l
  induction l with
  | nil => intro i n hi _; simp at hi
  | cons x xs ih =>
    intro i n hi hmin
    by_cases hx : normalizeIsbn x = norm
    · have hi0 : i = 0 := by
        by_contra h0
        exact hmin 0 (Nat.pos_of_ne_zero h0) (by simp [hx])
      subst hi0
      simp [firstIdxAux, hx]
    · cases i with
      | zero => simp [hx] at hi
      | succ i' =>
        have : firstIdxAux norm (x :: xs) n = firstIdxAux norm xs (n + 1) := by
          simp [firstIdxAux, hx]
        rw [this, ih i' (n + 1) hi (fun k hk => hmin (k + 1) (by omega))]
        congr 1
        omega

lemma firstIndexOfNormalized_eq (input : List String) (norm : String) (i : Nat)
    (hi : (input.get? i).map normalizeIsbn = some norm)
    (hmin : ∀ k, k < i → (input.get? k).map normalizeIsbn ≠ some norm) :
    firstIndexOfNormalized input norm = (i : Int) := by
  unfold firstIndexOfNormalized
  rw [firstIdxAux_spec norm input i 0 hi hmin]
  simp

/-- **C1.** Within one batch, a valid normalized identifier occurring at two
positions is resolved by at most one Upstream Resolver call; the duplicate
position's row is the first resolution's row with the reuse note appended
after any existing note text, and the first occurrence's row keeps its note
unchanged. -/
theorem claim1_memoization (input : List String) (resolve : String → Row)
    (norm : String) (i j : Nat) (hij : i < j)
    (hi : (input.get? i).map normalizeIsbn = some norm)
    (hj : (input.get? j).map normalizeIsbn = some norm)
    (hfirst : ∀ k, k < i → (input.get? k).map normalizeIsbn ≠ some norm)
    (hlen : norm.data.length = 10 ∨ norm.data.length = 13) :
    (processBatch input resolve).2.calls.count norm ≤ 1 ∧
    (processBatch input resolve).1.get? j =
      some { resolve norm with isbn := norm, note := reuseNote (resolve norm).note } ∧
    (processBatch input resolve).1.get? i =
      some { resolve norm with isbn := norm } := by
  obtain ⟨rawI, hrawI, hnormI⟩ : ∃ raw, input.get? i = some raw ∧ normalizeIsbn raw = norm := by
    cases h : input.get? i with
    | none => rw [h] at hi; simp at hi
    | some raw => rw [h] at hi; exact ⟨raw, rfl, by simpa using hi⟩
  obtain ⟨rawJ, hrawJ, hnormJ⟩ : ∃ raw, input.get? j = some raw ∧ normalizeIsbn raw = norm := by
    cases h : input.get? j with
    | none => rw [h] at hj; simp at hj
    | some raw => rw [h] at hj; exact ⟨raw, rfl, by simpa using hj⟩
  have hne : norm ≠ "" := by
    intro h
    rw [h] at hlen
    simp at hlen
  have hdig : norm.data.all Char.isDigit = true := hnormI ▸ normalizeIsbn_all_digits rawI
  have hfi : firstIndexOfNormalized input norm = (i : Int) :=
    firstIndexOfNormalized_eq input norm i hi hfirst
  have hrowJ : expectedRow input resolve rawJ j =
      { resolve norm with isbn := norm, note := reuseNote (resolve norm).note } := by
    unfold expectedRow
    dsimp only
    rw [hnormJ]
    rw [if_neg hne, if_neg (by push_neg; exact ⟨hlen, hdig⟩)]
    rw [if_pos (show firstIndexOfNormalized input norm ≠ (j : Int) by
      rw [hfi]; intro heq; omega)]
  have hrowI : expectedRow input resolve rawI i =
      { resolve norm with isbn := norm } := by
    unfold expectedRow
    dsimp only
    rw [hnormI]
    rw [if_neg hne, if_neg (by push_neg; exact ⟨hlen, hdig⟩)]
    rw [if_neg (by rw [hfi]; simp)]
  refine ⟨List.nodup_iff_count_le_one.mp (processBatch_calls_nodup input resolve) norm,
    ?_, ?_⟩
  · rw [processBatch_get, hrawJ]
    exact congrArg some hrowJ
  · rw [processBatch_get, hrawI]
    exact congrArg some hrowI

/-- Witness for C1: positions 0 and 2 hold the same valid identifier (one with
hyphens); one resolver call, reuse note on row 2, untouched note on row 0. -/
theorem claim1_witness :
    (processBatch ["978-89-0123-456-7", "xx", "9788901234567"]
        (fun _ => ⟨"I", "T", "A", "TA", "P", "Y", "성공", "N"⟩)).2.calls.count
      "9788901234567" ≤ 1 ∧
    (processBatch ["978-89-0123-456-7", "xx", "9788901234567"]
        (fun _ => ⟨"I", "T", "A", "TA", "P", "Y", "성공", "N"⟩)).1.get? 2 =
      some ⟨"9788901234567", "T", "A", "TA", "P", "Y", "성공",
        "N | 중복: 이전 조회 결과 재사용"⟩ ∧
    (processBatch ["978-89-0123-456-7", "xx", "9788901234567"]
        (fun _ => ⟨"I", "T", "A", "TA", "P", "Y", "성공", "N"⟩)).1.get? 0 =
      some ⟨"9788901234567", "T", "A", "TA", "P", "Y", "성공", "N"⟩ :=
  claim1_memoization ["978-89-0123-456-7", "xx", "9788901234567"]
    (fun _ => ⟨"I", "T", "A", "TA", "P", "Y", "성공", "N"⟩) "9788901234567" 0 2
    (by decide) (by decide) (by decide)
    (fun k hk => absurd hk (Nat.not_lt_zero k)) (by decide)

/-- **C4.** A raw token whose digits-only normalization is empty or of length
other than 10/13 yields a `형식오류` row with empty
title/author/publisher/year fields; the row does not depend on the resolver
(no network call, no cache access) and the task leaves the batch state —
memo table and call log — untouched. -/
theorem claim4_format_error (input : List String) (resolve resolve' : String → Row)
    (i : Nat) (raw : String)
    (hget : input.get? i = some raw)
    (hbad : normalizeIsbn raw = "" ∨
      ¬((normalizeIsbn raw).data.length = 10 ∨ (normalizeIsbn raw).data.length = 13)) :
    (∃ r, (processBatch input resolve).1.get? i = some r ∧
      r.status = "형식오류" ∧ r.title = "" ∧ r.authorName = "" ∧
      r.titleAuthor = "" ∧ r.publisher = "" ∧ r.year = "") ∧
    (processBatch input resolve).1.get? i = (processBatch input resolve').1.get? i ∧
    (∀ acc : BatchAcc, (processTask input resolve raw i acc).2 = acc) := by
  by_cases hn : normalizeIsbn raw = ""
  · have hrow : ∀ res : String → Row, expectedRow input res raw i =
        makeRow ⟨raw, "", "", "", "", some "형식오류", "빈 값 또는 ISBN 형식이 아님"⟩ := by
      intro res
      unfold expectedRow
      dsimp only
      rw [if_pos hn]
    refine ⟨⟨makeRow ⟨raw, "", "", "", "", some "형식오류", "빈 값 또는 ISBN 형식이 아님"⟩,
        ?_, rfl, rfl, rfl, rfl, rfl, rfl⟩, ?_, ?_⟩
    · rw [processBatch_get, hget]
      exact congrArg some (hrow resolve)
    · rw [processBatch_get input resolve i, processBatch_get input resolve' i, hget]
      exact congrArg some ((hrow resolve).trans (hrow resolve').symm)
    · intro acc
      unfold processTask
      dsimp only
      rw [if_pos hn]
  · have hlen' : ¬((normalizeIsbn raw).data.length = 10 ∨
        (normalizeIsbn raw).data.length = 13) := hbad.resolve_left hn
    have hrow : ∀ res : String → Row, expectedRow input res raw i =
        makeRow ⟨normalizeIsbn raw, "", "", "", "", some "형식오류",
          "ISBN은 숫자 10자리 또는 13자리여야 함"⟩ := by
      intro res
      unfold expectedRow
      dsimp only
      rw [if_neg hn, if_pos (Or.inl hlen')]
    refine ⟨⟨makeRow ⟨normalizeIsbn raw, "", "", "", "", some "형식오류",
        "ISBN은 숫자 10자리 또는 13자리여야 함"⟩,
        ?_, rfl, rfl, rfl, rfl, rfl, rfl⟩, ?_, ?_⟩
    · rw [processBatch_get, hget]
      exact congrArg some (hrow resolve)
    · rw [processBatch_get input resolve i, processBatch_get input resolve' i, hget]
      exact congrArg some ((hrow resolve).trans (hrow resolve').symm)
    · intro acc
      unfold processTask
      dsimp only
      rw [if_neg hn, if_pos (Or.inl hlen')]

/-- Witness for C4: an 8-digit token. -/
theorem claim4_witness :
    (∃ r, (processBatch ["12345678"]
        (fun _ => ⟨"I", "T", "A", "TA", "P", "Y", "성공", "N"⟩)).1.get? 0 = some r ∧
      r.status = "형식오류" ∧ r.title = "" ∧ r.authorName = "" ∧
      r.titleAuthor = "" ∧ r.publisher = "" ∧ r.year = "") ∧
    (∀ acc : BatchAcc, (processTask ["12345678"]
        (fun _ => ⟨"I", "T", "A", "TA", "P", "Y", "성공", "N"⟩) "12345678" 0 acc).2 = acc) :=
  ⟨(claim4_format_error ["12345678"] (fun _ => ⟨"I", "T", "A", "TA", "P", "Y", "성공", "N"⟩)
      (fun _ => ⟨"I", "T", "A", "TA", "P", "Y", "성공", "N"⟩) 0 "12345678" rfl
      (Or.inr (by decide))).1,
   (claim4_format_error ["12345678"] (fun _ => ⟨"I", "T", "A", "TA", "P", "Y", "성공", "N"⟩)
      (fun _ => ⟨"I", "T", "A", "TA", "P", "Y", "성공", "N"⟩) 0 "12345678" rfl
      (Or.inr (by decide))).2.2⟩

/-! ## Status classification and the summary partition -/

lemma fetch_status_cases (cache : String → Option BaseRow)
    (net : Nat → Nat → AttemptResult) (isbn : String)
    (hwf : ∀ b, cache isbn = some b → b.status = "성공" ∨ b.status = "미검색") :
    (fetchFromNldOrCache cache net isbn).1.status = "성공" ∨
    (fetchFromNldOrCache cache net isbn).1.status = "미검색" ∨
    (fetchFromNldOrCache cache net isbn).1.status = "실패" := by
  unfold fetchFromNldOrCache
  dsimp only
  split
  · rename_i b hb
    rcases hwf b hb with h | h
    · exact Or.inl (by simp [makeRow, BaseRow.fields, h])
    · exact Or.inr (Or.inl (by simp [makeRow, BaseRow.fields, h]))
  · split
    · exact Or.inr (Or.inr rfl)
    · split
      · exact Or.inr (Or.inr rfl)
      · split
        · exact Or.inr (Or.inr rfl)
        · split
          · exact Or.inr (Or.inl rfl)
          · simp only [makeRow, BaseRow.fields, Option.getD_some]
            split
            · exact Or.inl rfl
            · exact Or.inr (Or.inl rfl)

lemma expectedRow_status (input : List String) (resolve : String → Row)
    (raw : String) (idx : Nat) :
    (expectedRow input resolve raw idx).status = "형식오류" ∨
    (expectedRow input resolve raw idx).status =
      (resolve (normalizeIsbn raw)).status := by
  unfold expectedRow
  dsimp only
  split
  · exact Or.inl rfl
  · split
    · exact Or.inl rfl
    · split
      · exact Or.inr rfl
      · exact Or.inr rfl

lemma processBatch_row_mem (input : List String) (resolve : String → Row) {r : Row}
    (hr : r ∈ (processBatch input resolve).1) :
    ∃ p : Nat × String, r = expectedRow input resolve p.2 p.1 := by
  unfold processBatch at hr
  rw [(processBatchGo_spec input resolve _ _ (memoOk_init resolve)).1] at hr
  obtain ⟨p, _, hp⟩ := List.mem_map.mp hr
  exact ⟨p, hp.symm⟩

lemma count_partition : ∀ (l : List Row),
    (∀ r ∈ l, r.status = "성공" ∨ r.status = "미검색" ∨
      r.status = "실패" ∨ r.status = "형식오류") →
    (l.filter (fun r => r.status = "성공")).length +
    (l.filter (fun r => r.status = "미검색")).length +
    (l.filter (fun r => r.status = "실패")).length +
    (l.filter (fun r => r.status = "형식오류")).length = l.length := by
  intro l
  induction l with
  | nil => intro _; rfl
  | cons r t ih =>
    intro h
    have ht := ih (fun x hx => h x (List.mem_cons_of_mem _ hx))
    rcases h r (List.mem_cons_self _ _) with hs | hs | hs | hs <;>
      simp only [List.filter_cons, hs] <;> simp <;> omega

/-- **C10.** Every output row's status is one of the four values (success,
not-found, failed, format-error) — assuming the persistent cache only holds
the cache-worthy statuses, which is all the code ever writes — so the summary
counts satisfy `success + notFound + failed + invalid = total` and `total` is
the number of rows; and the Row Builder defaults the status to `미검색`
(not-found) when it is unspecified. -/
theorem claim10_summary_partition (isbns : List String) (hint : Option ℚ)
    (cache : String → Option BaseRow) (netOf : String → Nat → Nat → AttemptResult)
    (hwf : ∀ k b, cache k = some b → b.status = "성공" ∨ b.status = "미검색") :
    (∀ r ∈ (handleBatch isbns hint
        (fun norm => (fetchFromNldOrCache cache (netOf norm) norm).1)).rows,
      r.status = "성공" ∨ r.status = "미검색" ∨
        r.status = "실패" ∨ r.status = "형식오류") ∧
    ((handleBatch isbns hint
        (fun norm => (fetchFromNldOrCache cache (netOf norm) norm).1)).summary.success +
      (handleBatch isbns hint
        (fun norm => (fetchFromNldOrCache cache (netOf norm) norm).1)).summary.notFound +
      (handleBatch isbns hint
        (fun norm => (fetchFromNldOrCache cache (netOf norm) norm).1)).summary.failed +
      (handleBatch isbns hint
        (fun norm => (fetchFromNldOrCache cache (netOf norm) norm).1)).summary.invalid =
      (handleBatch isbns hint
        (fun norm => (fetchFromNldOrCache cache (netOf norm) norm).1)).summary.total) ∧
    ((handleBatch isbns hint
        (fun norm => (fetchFromNldOrCache cache (netOf norm) norm).1)).summary.total =
      (handleBatch isbns hint
        (fun norm => (fetchFromNldOrCache cache (netOf norm) norm).1)).rows.length) ∧
    (∀ f : RowFields, f.status = none → (makeRow f).status = "미검색") := by
  have hstatus : ∀ r ∈ (handleBatch isbns hint
      (fun norm => (fetchFromNldOrCache cache (netOf norm) norm).1)).rows,
      r.status = "성공" ∨ r.status = "미검색" ∨
        r.status = "실패" ∨ r.status = "형식오류" := by
    intro r hr
    obtain ⟨p, hp⟩ := processBatch_row_mem (isbns.take 500)
      (fun norm => (fetchFromNldOrCache cache (netOf norm) norm).1) hr
    rcases expectedRow_status (isbns.take 500)
        (fun norm => (fetchFromNldOrCache cache (netOf norm) norm).1) p.2 p.1 with h | h
    · exact Or.inr (Or.inr (Or.inr (hp ▸ h)))
    · rw [hp, h]
      rcases fetch_status_cases cache (netOf (normalizeIsbn p.2)) (normalizeIsbn p.2)
          (fun b hb => hwf _ b hb) with h' | h' | h'
      · exact Or.inl h'
      · exact Or.inr (Or.inl h')
      · exact Or.inr (Or.inr (Or.inl h'))
  refine ⟨hstatus, ?_, rfl, ?_⟩
  · exact count_partition _ hstatus
  · intro f hf
    simp [makeRow, hf]

/-- Witness for C10 at a concrete batch (duplicate valid id, one invalid id,
empty cache, failing network). -/
theorem claim10_witness :
    (handleBatch ["9788901234567", "xx", "9788901234567"] none
        (fun norm => (fetchFromNldOrCache (fun _ => none)
          ((fun _ _ _ => .fail "down") norm) norm).1)).summary.success +
      (handleBatch ["9788901234567", "xx", "9788901234567"] none
        (fun norm => (fetchFromNldOrCache (fun _ => none)
          ((fun _ _ _ => .fail "down") norm) norm).1)).summary.notFound +
      (handleBatch ["9788901234567", "xx", "9788901234567"] none
        (fun norm => (fetchFromNldOrCache (fun _ => none)
          ((fun _ _ _ => .fail "down") norm) norm).1)).summary.failed +
      (handleBatch ["9788901234567", "xx", "9788901234567"] none
        (fun norm => (fetchFromNldOrCache (fun _ => none)
          ((fun _ _ _ => .fail "down") norm) norm).1)).summary.invalid =
      (handleBatch ["9788901234567", "xx", "9788901234567"] none
        (fun norm => (fetchFromNldOrCache (fun _ => none)
          ((fun _ _ _ => .fail "down") norm) norm).1)).summary.total :=
  (claim10_summary_partition ["9788901234567", "xx", "9788901234567"] none
    (fun _ => none) (fun _ _ _ => .fail "down")
    (fun _ b hb => nomatch hb)).2.1

/-! ## Scheduler correctness: slot/index correspondence, worker count, and
termination. -/

/-- Invariant of the pool machine: results keep their size; every claimed
index is either already written with its own task's result or currently held
by a running worker; a finished worker proves the cursor has passed the end;
a running worker's index is in range. -/
def poolInv (task : Nat → α) (n wn : Nat) (s : PoolState α) : Prop :=
  s.results.length = n ∧
  s.workers.length = wn ∧
  (∀ j, j < s.nextIdx → j < n →
    s.results.get? j = some (some (task j)) ∨
      ∃ w, s.workers.get? w = some (.running j)) ∧
  (∀ w, s.workers.get? w = some .done → n ≤ s.nextIdx) ∧
  (∀ w j, s.workers.get? w = some (.running j) → j < n)

lemma get?_lt {l : List α} {i : Nat} {a : α} (h : l.get? i = some a) :
    i < l.length :=
  (List.get?_eq_some.mp h).1

lemma poolStep_inv (task : Nat → α) (n wn : Nat) (s : PoolState α) (w : Nat)
    (hinv : poolInv task n wn s) : poolInv task n wn (poolStep task s w) := by
  obtain ⟨hlen, hwlen, hwrite, hdone, hrange⟩ := hinv
  unfold poolStep
  cases hw : s.workers.get? w with
  | none => exact ⟨hlen, hwlen, hwrite, hdone, hrange⟩
  | some st =>
    have hwlt : w < s.workers.length := get?_lt hw
    cases st with
    | done => exact ⟨hlen, hwlen, hwrite, hdone, hrange⟩
    | idle =>
      by_cases hc : s.nextIdx < s.results.length
      · rw [if_pos hc]
        refine ⟨hlen, by simpa using hwlen, ?_, ?_, ?_⟩
        · intro j hj hjn
          rcases Nat.lt_succ_iff_lt_or_eq.mp hj with hj' | hj'
          · rcases hwrite j hj' hjn with hres | ⟨w', hw'⟩
            · exact Or.inl hres
            · refine Or.inr ⟨w', ?_⟩
              rcases eq_or_ne w w' with rfl | hne
              · rw [hw] at hw'
                cases hw'
              · rwa [List.get?_set_ne _ _ hne]
          · subst hj'
            exact Or.inr ⟨w, by rw [List.get?_set_eq_of_lt _ hwlt]⟩
        · intro w' hw'
          rcases eq_or_ne w w' with rfl | hne
          · rw [List.get?_set_eq_of_lt _ hwlt] at hw'
            cases hw'
          · rw [List.get?_set_ne _ _ hne] at hw'
            exact Nat.le_succ_of_le (hdone w' hw')
        · intro w' j hw'
          rcases eq_or_ne w w' with rfl | hne
          · rw [List.get?_set_eq_of_lt _ hwlt] at hw'
            cases hw'
            rw [hlen] at hc
            exact hc
          · rw [List.get?_set_ne _ _ hne] at hw'
            exact hrange w' j hw'
      · rw [if_neg hc]
        refine ⟨hlen, by simpa using hwlen, ?_, ?_, ?_⟩
        · intro j hj hjn
          rcases hwrite j hj hjn with hres | ⟨w', hw'⟩
          · exact Or.inl hres
          · refine Or.inr ⟨w', ?_⟩
            rcases eq_or_ne w w' with rfl | hne
            · rw [hw] at hw'
              cases hw'
            · rwa [List.get?_set_ne _ _ hne]
        · intro w' _
          dsimp only
          rw [hlen] at hc
          omega
        · intro w' j hw'
          rcases eq_or_ne w w' with rfl | hne
          · rw [List.get?_set_eq_of_lt _ hwlt] at hw'
            cases hw'
          · rw [List.get?_set_ne _ _ hne] at hw'
            exact hrange w' j hw'
    | running j =>
      have hjn : j < n := hrange w j hw
      refine ⟨by simpa using hlen, by simpa using hwlen, ?_, ?_, ?_⟩
      · intro j' hj' hj'n
        rcases eq_or_ne j j' with rfl | hjne
        · refine Or.inl ?_
          rw [List.get?_set_eq_of_lt _ (by rw [hlen]; exact hjn)]
        · rcases hwrite j' hj' hj'n with hres | ⟨w', hw'⟩
          · refine Or.inl ?_
            rwa [List.get?_set_ne _ _ hjne]
          · rcases eq_or_ne w w' with rfl | hne
            · rw [hw] at hw'
              cases hw'
              exact absurd rfl hjne
            · exact Or.inr ⟨w', by rwa [List.get?_set_ne _ _ hne]⟩
      · intro w' hw'
        rcases eq_or_ne w w' with rfl | hne
        · rw [List.get?_set_eq_of_lt _ hwlt] at hw'
          cases hw'
        · rw [List.get?_set_ne _ _ hne] at hw'
          exact hdone w' hw'
      · intro w' j' hw'
        rcases eq_or_ne w w' with rfl | hne
        · rw [List.get?_set_eq_of_lt _ hwlt] at hw'
          cases hw'
        · rw [List.get?_set_ne _ _ hne] at hw'
          exact hrange w' j' hw'

lemma runSched_inv (task : Nat → α) (n wn : Nat) :
    ∀ (sched : List Nat) (s : PoolState α), poolInv task n wn s →
      poolInv task n wn (runSched task s sched) := by
  intro sched
  induction sched with
  | nil => intro s hs; exact hs
  | cons w rest ih =>
    intro s hs
    exact ih _ (poolStep_inv task n wn s w hs)

lemma replicate_get?_idle {m w : Nat} {st : WStatus}
    (hw : (List.replicate m WStatus.idle).get? w = some st) : st = .idle := by
  have hwlt : w < m := by
    have := get?_lt hw
    rwa [List.length_replicate] at this
  rw [List.get?_eq_getElem?, List.getElem?_replicate, if_pos hwlt] at hw
  cases hw
  rfl

lemma initPool_inv (task : Nat → α) (n limit : Nat) :
    poolInv task n (min limit n) (initPool α n limit) := by
  refine ⟨List.length_replicate _ _, List.length_replicate _ _, ?_, ?_, ?_⟩
  · intro j hj _
    exact absurd hj (Nat.not_lt_zero j)
  · intro w hw
    cases replicate_get?_idle hw
  · intro w j hw
    cases replicate_get?_idle hw

lemma allDone_get? {s : PoolState α} (h : allDone s = true) :
    ∀ w st, s.workers.get? w = some st → st = .done := by
  intro w st hw
  have hmem : st ∈ s.workers := List.get?_mem hw
  have := List.all_eq_true.mp h st hmem
  cases st with
  | done => rfl
  | idle => cases this
  | running j => cases this

/-- Steps of a finished worker do nothing. -/
lemma poolStep_done (task : Nat → α) (s : PoolState α) (w : Nat)
    (h : s.workers.get? w = some .done) : poolStep task s w = s := by
  unfold poolStep
  rw [h]

lemma runSched_replicate_done (task : Nat → α) (s : PoolState α) (w : Nat)
    (h : s.workers.get? w = some .done) :
    ∀ k, runSched task s (List.replicate k w) = s := by
  intro k
  induction k with
  | zero => rfl
  | succ k ih =>
    rw [List.replicate_succ]
    show runSched task (poolStep task s w) (List.replicate k w) = s
    rw [poolStep_done task s w h]
    exact ih

/-- An idle worker with the cursor exhausted finishes in one step and then
idles through the rest of its schedule. -/
lemma oneWorkerDone (task : Nat → α) (s : PoolState α) (w : Nat)
    (h : s.workers.get? w = some .idle) (hn : s.results.length ≤ s.nextIdx) :
    ∀ k, runSched task s (List.replicate (k + 1) w) =
      { s with workers := s.workers.set w .done } := by
  intro k
  have hwlt : w < s.workers.length := get?_lt h
  rw [List.replicate_succ]
  show runSched task (poolStep task s w) (List.replicate k w) = _
  have hstep : poolStep task s w = { s with workers := s.workers.set w .done } := by
    unfold poolStep
    rw [h, if_neg (by omega)]
  rw [hstep]
  exact runSched_replicate_done task _ w (by rw [List.get?_set_eq_of_lt _ hwlt]) k

/-- A single worker, scheduled `2*m+1` times, claims and completes all
remaining tasks and then finishes. -/
lemma soloRun (task : Nat → α) :
    ∀ (m : Nat) (s : PoolState α),
      s.workers.get? 0 = some .idle → s.results.length ≤ s.nextIdx + m →
      (runSched task s (List.replicate (2 * m + 1) 0)).workers =
          s.workers.set 0 .done ∧
      (runSched task s (List.replicate (2 * m + 1) 0)).results.length =
          s.results.length ∧
      s.results.length ≤ (runSched task s (List.replicate (2 * m + 1) 0)).nextIdx := by
  intro m
  induction m with
  | zero =>
    intro s h0 hm
    rw [Nat.mul_zero, Nat.zero_add]
    rw [oneWorkerDone task s 0 h0 (by omega) 0]
    refine ⟨rfl, rfl, ?_⟩
    dsimp only
    omega
  | succ m ih =>
    intro s h0 hm
    have h0lt : 0 < s.workers.length := get?_lt h0
    by_cases hc : s.nextIdx < s.results.length
    · have hrep : 2 * (m + 1) + 1 = ((2 * m + 1) + 1) + 1 := by ring
      rw [hrep, List.replicate_succ, List.replicate_succ]
      have hstep1 : poolStep task s 0 =
          { s with nextIdx := s.nextIdx + 1,
                   workers := s.workers.set 0 (.running s.nextIdx) } := by
        unfold poolStep
        rw [h0, if_pos hc]
      have hget1 : (s.workers.set 0 (WStatus.running s.nextIdx)).get? 0 =
          some (.running s.nextIdx) := List.get?_set_eq_of_lt _ h0lt
      have hstep2 : poolStep task (poolStep task s 0) 0 =
          { s with nextIdx := s.nextIdx + 1,
                   results := s.results.set s.nextIdx (some (task s.nextIdx)),
                   workers := (s.workers.set 0 (.running s.nextIdx)).set 0 .idle } := by
        rw [hstep1]
        unfold poolStep
        dsimp only
        rw [hget1]
      have hchain : runSched task s (0 :: 0 :: List.replicate (2 * m + 1) 0) =
          runSched task (poolStep task (poolStep task s 0) 0)
            (List.replicate (2 * m + 1) 0) := rfl
      rw [hchain, hstep2]
      obtain ⟨hw2, hr2, hn2⟩ := ih
        { s with nextIdx := s.nextIdx + 1,
                 results := s.results.set s.nextIdx (some (task s.nextIdx)),
                 workers := (s.workers.set 0 (.running s.nextIdx)).set 0 .idle }
        (List.get?_set_eq_of_lt _ (by rw [List.length_set]; exact h0lt))
        (by dsimp only; rw [List.length_set]; omega)
      refine ⟨?_, ?_, ?_⟩
      · rw [hw2]
        dsimp only
        rw [List.set_set, List.set_set]
      · rw [hr2]
        dsimp only
        rw [List.length_set]
      · dsimp only at hn2
        rw [List.length_set] at hn2
        exact hn2
    · have hstep : poolStep task s 0 = { s with workers := s.workers.set 0 .done } := by
        unfold poolStep
        rw [h0, if_neg hc]
      have hchain : runSched task s (List.replicate (2 * (m + 1) + 1) 0) =
          runSched task (poolStep task s 0) (List.replicate (2 * (m + 1)) 0) := by
        rw [List.replicate_succ]
        rfl
      rw [hchain, hstep,
        runSched_replicate_done task _ 0 (List.get?_set_eq_of_lt _ h0lt) _]
      refine ⟨rfl, rfl, ?_⟩
      dsimp only
      omega

/-- Schedule that lets workers `start, start+1, …` each run `steps` times. -/
def drainSched (steps : Nat) : Nat → Nat → List Nat
  | _, 0 => []
  | start, cnt + 1 => List.replicate steps start ++ drainSched steps (start + 1) cnt

lemma runSched_append (task : Nat → α) (s : PoolState α) (a b : List Nat) :
    runSched task s (a ++ b) = runSched task (runSched task s a) b :=
  List.foldl_append _ _ _ _

lemma allDone_of_get? {s : PoolState α}
    (h : ∀ w, w < s.workers.length → s.workers.get? w = some .done) :
    allDone s = true := by
  unfold allDone
  rw [List.all_eq_true]
  intro st hmem
  obtain ⟨i, hi⟩ := List.get_of_mem hmem
  have hlt : i.val < s.workers.length := i.isLt
  have := h i.val hlt
  rw [List.get?_eq_get hlt] at this
  rw [hi] at this
  cases this
  rfl

lemma finishAll (task : Nat → α) (n : Nat) :
    ∀ (cnt start : Nat) (s : PoolState α),
      s.results.length ≤ s.nextIdx →
      start + cnt = s.workers.length →
      (∀ w, w < start → s.workers.get? w = some .done) →
      (∀ w, start ≤ w → w < s.workers.length →
        s.workers.get? w = some .idle ∨ s.workers.get? w = some .done) →
      allDone (runSched task s (drainSched (2 * n + 1) start cnt)) = true := by
  intro cnt
  induction cnt with
  | zero =>
    intro start s _ hcnt hlo _
    show allDone s = true
    exact allDone_of_get? fun w hw => hlo w (by omega)
  | succ cnt ih =>
    intro start s hnext hcnt hlo hhi
    rw [drainSched, runSched_append]
    have hslt : start < s.workers.length := by omega
    rcases hhi start (Nat.le_refl _) hslt with hidle | hdone
    · rw [show 2 * n + 1 = 2 * n + 1 from rfl,
        oneWorkerDone task s start hidle hnext (2 * n)]
      refine ih (start + 1) _ ?_ ?_ ?_ ?_
      · exact hnext
      · rw [List.length_set]; omega
      · intro w hw
        rcases eq_or_ne start w with rfl | hne
        · exact List.get?_set_eq_of_lt _ hslt
        · rw [List.get?_set_ne _ _ hne]
          exact hlo w (by omega)
      · intro w hw hwlt
        rw [List.length_set] at hwlt
        rw [List.get?_set_ne _ _ (by omega)]
        exact hhi w (by omega) hwlt
    · rw [runSched_replicate_done task s start hdone]
      refine ih (start + 1) s hnext (by omega) ?_ ?_
      · intro w hw
        rcases eq_or_ne w start with rfl | hne
        · exact hdone
        · exact hlo w (by omega)
      · intro w hw hwlt
        exact hhi w (by omega) hwlt

/-- **C2.** The scheduler writes each task's result into the slot with the
task's own input index under every schedule that runs the pool to completion
(so the output is positionally faithful regardless of completion order); the
number of workers created is `min K N`; and for every budget `K ≥ 1` some
schedule runs the pool to completion (no starvation or deadlock even when `K`
exceeds `N`). -/
theorem claim2_pool (α : Type) (task : Nat → α) (n K : Nat) (hK : 1 ≤ K)
    (sched : List Nat) :
    (initPool α n K).workers.length = min K n ∧
    (allDone (runSched task (initPool α n K) sched) = true →
      ∀ j, j < n →
        (runSched task (initPool α n K) sched).results.get? j =
          some (some (task j))) ∧
    (∃ sched2, allDone (runSched task (initPool α n K) sched2) = true) := by
  refine ⟨List.length_replicate _ _, ?_, ?_⟩
  · intro hdone j hj
    have hinv := runSched_inv task n (min K n) sched _ (initPool_inv task n K)
    obtain ⟨hlen, hwlen, hwrite, hdonele, _⟩ := hinv
    have hw0 : 0 < (runSched task (initPool α n K) sched).workers.length := by
      rw [hwlen]
      omega
    obtain ⟨st0, hst0⟩ : ∃ st,
        (runSched task (initPool α n K) sched).workers.get? 0 = some st := by
      cases h : (runSched task (initPool α n K) sched).workers.get? 0 with
      | none =>
        have := List.get?_eq_none.mp h
        omega
      | some st => exact ⟨st, rfl⟩
    have : st0 = .done := allDone_get? hdone 0 st0 hst0
    subst this
    have hnafter : n ≤ (runSched task (initPool α n K) sched).nextIdx :=
      hdonele 0 hst0
    rcases hwrite j (by omega) hj with hres | ⟨w, hw⟩
    · exact hres
    · have := allDone_get? hdone w _ hw
      cases this
  · rcases Nat.eq_zero_or_pos n with rfl | hn
    · refine ⟨[], ?_⟩
      show allDone (initPool α 0 K) = true
      unfold initPool allDone
      rw [Nat.min_zero]
      rfl
    · refine ⟨List.replicate (2 * n + 1) 0 ++ drainSched (2 * n + 1) 1 (min K n - 1), ?_⟩
      rw [runSched_append]
      have hmin : 1 ≤ min K n := by omega
      have h0 : (initPool α n K).workers.get? 0 = some .idle := by
        show (List.replicate (min K n) WStatus.idle).get? 0 = some .idle
        rw [List.get?_eq_getElem?, List.getElem?_replicate, if_pos (by omega)]
      have hlen0 : (initPool α n K).results.length = n := List.length_replicate _ _
      have hwlen0 : (initPool α n K).workers.length = min K n := List.length_replicate _ _
      obtain ⟨hw, hr, hnx⟩ := soloRun task n (initPool α n K) h0
        (by rw [hlen0, show (initPool α n K).nextIdx = 0 from rfl]; omega)
      refine finishAll task n (min K n - 1) 1 _ ?_ ?_ ?_ ?_
      · rw [hr, hlen0]
        rw [hlen0] at hnx
        exact hnx
      · rw [hw, List.length_set, hwlen0]
        omega
      · intro w hwlt1
        have hw0 : w = 0 := by omega
        subst hw0
        rw [hw]
        exact List.get?_set_eq_of_lt _ (by rw [hwlen0]; omega)
      · intro w hw1 hwlt
        rw [hw, List.length_set, hwlen0] at hwlt
        rw [hw]
        rw [List.get?_set_ne _ _ (by omega)]
        refine Or.inl ?_
        show (List.replicate (min K n) WStatus.idle).get? w = some .idle
        rw [List.get?_eq_getElem?, List.getElem?_replicate, if_pos hwlt]


/-- Witness for C2: two tasks, budget one, a concrete completing schedule. -/
theorem claim2_witness :
    (initPool Nat 2 1).workers.length = min 1 2 ∧
    (runSched (fun i => i * 10) (initPool Nat 2 1) [0, 0, 0, 0, 0]).results.get? 0 =
      some (some 0) ∧
    (runSched (fun i => i * 10) (initPool Nat 2 1) [0, 0, 0, 0, 0]).results.get? 1 =
      some (some 10) ∧
    (∃ sched2, allDone (runSched (fun i => i * 10) (initPool Nat 2 1) sched2) = true) :=
  ⟨(claim2_pool Nat (fun i => i * 10) 2 1 (by decide) [0, 0, 0, 0, 0]).1,
   (claim2_pool Nat (fun i => i * 10) 2 1 (by decide) [0, 0, 0, 0, 0]).2.1
     (by decide) 0 (by decide),
   (claim2_pool Nat (fun i => i * 10) 2 1 (by decide) [0, 0, 0, 0, 0]).2.1
     (by decide) 1 (by decide),
   (claim2_pool Nat (fun i => i * 10) 2 1 (by decide) [0, 0, 0, 0, 0]).2.2⟩

end NldIsbn
